import Mathlib

/-!
Verification of SNAPLib/WGsim.cpp against its specification.

The file embeds the two operations of WGsim.cpp shallowly in Lean:

* wgsimReadMisaligned: copies the read id into a 1024 byte buffer (process
  exit when it does not fit), locates the first colon, scans backward for
  three underscores, parses the two one-based offsets with sscanf, slices
  the contig name, looks up the contig base offset, converts to zero-based
  absolute coordinates (unsigned 32-bit arithmetic, so modulo 2^32), writes
  the low/high interval through the out pointers and returns the tolerance
  comparison genomeLocation > high + maxK or genomeLocation + maxK < low.
  Every early return of the C function prints a diagnostic and returns the
  boolean false; the model keeps the diagnostic kind as a ParseError value
  and keeps the C return value reachable through creturn.

* wgsimGenerateIDString: sprintf of
  contig_begin_end_0::0:0_2:0:a0_0/1-or-2 with one-based begin/end.

Strings are modelled as List Char (the C buffers hold no NUL bytes in any
behaviour the claims touch).  Unsigned int values are Nat with explicit
reduction modulo 2^32 where the C arithmetic can wrap; sscanf with the %d
conversion is modelled as: skip C whitespace, optional sign, a nonempty
maximal run of decimal digits, value reduced modulo 2^32 and negated
modulo 2^32 under a minus sign (the bit pattern a negative int stores
through an unsigned pointer).
-/

/-- Modulus of the unsigned 32-bit arithmetic used throughout the C file. -/
def U32 : Nat := 4294967296

/-- Size bound of the contigName buffer in wgsimReadMisaligned. -/
def contigNameMaxSize : Nat := 200

/-- Diagnostic kind of each early return of wgsimReadMisaligned, in the
order the checks appear in the C code. -/
inductive ParseError where
  | MissingColon
  | MissingUnderscore1
  | MissingUnderscore2
  | MissingUnderscore3
  | BadOffset1
  | BadOffset2
  | ContigNameTooLong
  | UnknownContig
  deriving DecidableEq, Repr

/-- Whitespace of the C locale, skipped by the %d conversion of sscanf. -/
def isWsC (c : Char) : Bool :=
  c = ' ' || c = '\t' || c = '\n' || c = '\x0b' || c = '\x0c' || c = '\r'

/-- Decimal digit test on character codes 48..57. -/
def isDigitC (c : Char) : Bool :=
  48 ≤ c.toNat && c.toNat ≤ 57

/-- Value of a run of decimal digits, most significant first. -/
def digitsVal (l : List Char) : Nat :=
  l.foldl (fun a c => 10 * a + (c.toNat - 48)) 0

/-- Digit-run part of the %d conversion: a nonempty maximal run of decimal
digits; the value is stored through an unsigned pointer, hence reduced
modulo 2^32, with a minus sign negating modulo 2^32. -/
def sscanfDigits (s : List Char) (neg : Bool) : Option Nat :=
  let ds := s.takeWhile (fun c => isDigitC c)
  if ds.isEmpty then none
  else if neg then some ((U32 - digitsVal ds % U32) % U32)
  else some (digitsVal ds % U32)

/-- Model of sscanf(s, "%d", out) with out an unsigned int pointer:
returns none exactly when sscanf returns 0. -/
def sscanfD (s : List Char) : Option Nat :=
  let s1 := s.dropWhile (fun c => isWsC c)
  if s1.head? = some '-' then sscanfDigits s1.tail true
  else if s1.head? = some '+' then sscanfDigits s1.tail false
  else sscanfDigits s1 false

/-- Index of the first colon of the id: models strchr(id, colon). -/
def findColon : List Char → Option Nat
  | [] => none
  | c :: t => if c = ':' then some 0 else (findColon t).map (· + 1)

/-- Largest index u ≤ i holding an underscore, scanning downward from i. -/
def lastUnderscoreLE (id : List Char) : Nat → Option Nat
  | 0 => if id.getD 0 ' ' = '_' then some 0 else none
  | i + 1 => if id.getD (i + 1) ' ' = '_' then some (i + 1) else lastUnderscoreLE id i

/-- Models the backward underscore scan loops of the C code, starting just
before index p and running down to the start of the buffer. -/
def backUnderscore (id : List Char) (p : Nat) : Option Nat :=
  if p = 0 then none else lastUnderscoreLE id (p - 1)

/-- Parsing part of wgsimReadMisaligned: first colon, three backward
underscore scans, offset1 after the third underscore, offset2 after the
second underscore (defaulting to offset1 for adjacent underscores), then
the contig name buffer bound.  Returns the contig name and the two raw
one-based offsets, or the diagnostic kind of the first failing check. -/
def decodeCore (id : List Char) : Except ParseError (List Char × Nat × Nat) :=
  match findColon id with
  | none => .error .MissingColon
  | some c =>
    match backUnderscore id c with
    | none => .error .MissingUnderscore1
    | some u1 =>
      match backUnderscore id u1 with
      | none => .error .MissingUnderscore2
      | some u2 =>
        match backUnderscore id u2 with
        | none => .error .MissingUnderscore3
        | some u3 =>
          match sscanfD (id.drop (u3 + 1)) with
          | none => .error .BadOffset1
          | some o1 =>
            match (if u1 = u2 + 1 then some o1 else sscanfD (id.drop (u2 + 1))) with
            | none => .error .BadOffset2
            | some o2 =>
              if u3 ≥ contigNameMaxSize then .error .ContigNameTooLong
              else .ok (id.take u3, o1, o2)

/-- External genome collaborator: contig names with their base offsets.
getOffsetOfContig models Genome::getOffsetOfContig. -/
def Genome : Type := List (List Char × Nat)

/-- Lookup of the base offset of a contig by name. -/
def getOffsetOfContig : Genome → List Char → Option Nat
  | [], _ => none
  | (n, off) :: t, name => if n = name then some off else getOffsetOfContig t name

/-- Decoding through the genome: raw offsets become zero-based absolute
coordinates offset + offsetOfContig - 1 in unsigned arithmetic, and the
interval is (min, max) of the two. -/
def decodeId (g : Genome) (id : List Char) : Except ParseError (Nat × Nat) :=
  match decodeCore id with
  | .error e => .error e
  | .ok (cn, o1, o2) =>
    match getOffsetOfContig g cn with
    | none => .error .UnknownContig
    | some off =>
      let a1 := (o1 + off + (U32 - 1)) % U32
      let a2 := (o2 + off + (U32 - 1)) % U32
      .ok (min a1 a2, max a1 a2)

/-- The tolerance comparison of the final return statement, in the unsigned
32-bit arithmetic of the C code. -/
def wgsimJudge (genomeLocation low high maxK : Nat) : Bool :=
  decide ((high + maxK) % U32 < genomeLocation) || decide ((genomeLocation + maxK) % U32 < low)

/-- Observable outcome of one call of wgsimReadMisaligned: process exit
through soft_exit, an early return with a diagnostic, or a completed run. -/
inductive WgsimOutcome where
  | fatal
  | parseFail (e : ParseError)
  | success (low high : Nat) (misaligned : Bool)
  deriving DecidableEq, Repr

/-- wgsimReadMisaligned: the length gate of the 1024 byte buffer, then
decoding, then the tolerance comparison. -/
def wgsimReadMisaligned (g : Genome) (id : List Char) (genomeLocation maxK : Nat) : WgsimOutcome :=
  if id.length > 1023 then .fatal
  else
    match decodeId g id with
    | .error e => .parseFail e
    | .ok (low, high) => .success low high (wgsimJudge genomeLocation low high maxK)

/-- The boolean the C function returns to its caller: none when the process
exits, false on every early return, the comparison result on completion. -/
def creturn : WgsimOutcome → Option Bool
  | .fatal => none
  | .parseFail _ => some false
  | .success _ _ m => some m

/-- wgsimReadMisaligned with the two out pointers modelled as cells passed
in and returned: the C code stores low and high only on the path that
reaches the final return statement. -/
def wgsimReadMisalignedSt (g : Genome) (id : List Char) (genomeLocation maxK lowCell highCell : Nat) :
    WgsimOutcome × Nat × Nat :=
  if id.length > 1023 then (.fatal, lowCell, highCell)
  else
    match decodeId g id with
    | .error e => (.parseFail e, lowCell, highCell)
    | .ok (low, high) =>
      (.success low high (wgsimJudge genomeLocation low high maxK), low, high)

/-- Decimal digit characters, index 0..9. -/
def digitChar : Nat → Char
  | 0 => '0'
  | 1 => '1'
  | 2 => '2'
  | 3 => '3'
  | 4 => '4'
  | 5 => '5'
  | 6 => '6'
  | 7 => '7'
  | 8 => '8'
  | _ => '9'

/-- Decimal rendering of a nonnegative value, fuel-structured so that the
kernel can evaluate it; fuel n + 1 always suffices for value n. -/
def toDecimalAux : Nat → Nat → List Char
  | 0, _ => []
  | fuel + 1, n =>
    if n < 10 then [digitChar n]
    else toDecimalAux fuel (n / 10) ++ [digitChar (n % 10)]

/-- Decimal rendering of a nonnegative value, no leading zeros. -/
def toDecimal (n : Nat) : List Char :=
  toDecimalAux (n + 1) n

/-- sprintf %d of an unsigned 32-bit value v: the int with the same bit
pattern is printed, negative when v ≥ 2^31. -/
def sprintfD (v : Nat) : List Char :=
  if v < 2147483648 then toDecimal v else '-' :: toDecimal (U32 - v)

/-- wgsimGenerateIDString: sprintf(buffer, percent-s _ percent-d _
percent-d _0::0:0_2:0:a0_0/ percent-d, name, offsetInContig + 1,
offsetInContig + readLength, firstHalf ? 1 : 2), with the two sums
computed in unsigned arithmetic. -/
def wgsimGenerateIDString (contigName : List Char) (offsetInContig readLength : Nat)
    (firstHalf : Bool) : List Char :=
  contigName ++ ('_' :: sprintfD ((offsetInContig + 1) % U32))
    ++ ('_' :: sprintfD ((offsetInContig + readLength) % U32))
    ++ "_0::0:0_2:0:a0_0/".toList
    ++ [if firstHalf then '1' else '2']

deriving instance DecidableEq for Except

/-! Helper lemmas about characters and decimal rendering. -/

/-- Value of digitChar below 10. -/
lemma digitChar_toNat (d : Nat) (hd : d < 10) : (digitChar d).toNat = 48 + d := by
  interval_cases d <;> rfl

/-- digitChar below 10 is a decimal digit. -/
lemma isDigitC_digitChar (d : Nat) (hd : d < 10) : isDigitC (digitChar d) = true := by
  unfold isDigitC
  rw [digitChar_toNat d hd]
  simp only [Bool.and_eq_true, decide_eq_true_eq]
  omega

/-- A decimal digit is not C whitespace, not a sign, not an underscore and
not a colon. -/
lemma digit_props (c : Char) (h : isDigitC c = true) :
    isWsC c = false ∧ c ≠ '-' ∧ c ≠ '+' ∧ c ≠ '_' ∧ c ≠ ':' := by
  refine ⟨?_, ?_, ?_, ?_, ?_⟩
  · by_contra hw
    have hw' : isWsC c = true := by
      cases hws : isWsC c
      · exact absurd hws hw
      · rfl
    simp only [isWsC, Bool.or_eq_true, decide_eq_true_eq] at hw'
    rcases hw' with ((((rfl | rfl) | rfl) | rfl) | rfl) | rfl <;> exact absurd h (by decide)
  · rintro rfl; exact absurd h (by decide)
  · rintro rfl; exact absurd h (by decide)
  · rintro rfl; exact absurd h (by decide)
  · rintro rfl; exact absurd h (by decide)

/-- All characters of toDecimalAux are decimal digits. -/
lemma toDecimalAux_mem (fuel : Nat) :
    ∀ n, n < fuel → ∀ c ∈ toDecimalAux fuel n, isDigitC c = true := by
  induction fuel with
  | zero => intro n hn; omega
  | succ f ih =>
    intro n hn c hc
    by_cases h10 : n < 10
    · simp only [toDecimalAux, h10, if_true, List.mem_singleton] at hc
      subst hc
      exact isDigitC_digitChar n h10
    · simp only [toDecimalAux, h10, if_false, List.mem_append, List.mem_singleton] at hc
      rcases hc with hc | hc
      · exact ih (n / 10) (by omega) c hc
      · subst hc
        exact isDigitC_digitChar (n % 10) (by omega)

/-- toDecimalAux is nonempty with enough fuel. -/
lemma toDecimalAux_ne_nil (fuel n : Nat) (h : n < fuel) : toDecimalAux fuel n ≠ [] := by
  cases fuel with
  | zero => omega
  | succ f =>
    by_cases h10 : n < 10 <;> simp [toDecimalAux, h10]

/-- Folding the digit accumulator over toDecimalAux recovers the value. -/
lemma toDecimalAux_foldl (fuel : Nat) :
    ∀ n a, n < fuel →
      (toDecimalAux fuel n).foldl (fun acc c => 10 * acc + (c.toNat - 48)) a =
        a * 10 ^ (toDecimalAux fuel n).length + n := by
  induction fuel with
  | zero => intro n a h; omega
  | succ f ih =>
    intro n a h
    by_cases h10 : n < 10
    · simp only [toDecimalAux, h10, if_true, List.foldl_cons, List.foldl_nil,
        List.length_singleton, pow_one]
      rw [digitChar_toNat n h10]
      omega
    · simp only [toDecimalAux, h10, if_false]
      rw [List.foldl_append, ih (n / 10) a (by omega), List.length_append]
      simp only [List.foldl_cons, List.foldl_nil, List.length_singleton]
      rw [digitChar_toNat (n % 10) (by omega)]
      have hmod : 48 + n % 10 - 48 = n % 10 := by omega
      rw [hmod]
      have hsplit : 10 * (n / 10) + n % 10 = n := by omega
      calc 10 * (a * 10 ^ (toDecimalAux f (n / 10)).length + n / 10) + n % 10
          = a * (10 ^ (toDecimalAux f (n / 10)).length * 10) + (10 * (n / 10) + n % 10) := by
            ring
        _ = a * 10 ^ ((toDecimalAux f (n / 10)).length + 1) + n := by
            rw [hsplit, pow_succ]

/-- All characters of toDecimal are decimal digits. -/
lemma toDecimal_mem (n : Nat) : ∀ c ∈ toDecimal n, isDigitC c = true :=
  toDecimalAux_mem (n + 1) n (by omega)

/-- toDecimal is nonempty. -/
lemma toDecimal_ne_nil (n : Nat) : toDecimal n ≠ [] :=
  toDecimalAux_ne_nil (n + 1) n (by omega)

/-- digitsVal inverts toDecimal. -/
lemma digitsVal_toDecimal (n : Nat) : digitsVal (toDecimal n) = n := by
  unfold digitsVal toDecimal
  rw [toDecimalAux_foldl (n + 1) n 0 (by omega)]
  simp

/-- takeWhile passes over a block that satisfies the predicate. -/
lemma takeWhile_append_of_all (p : Char → Bool) (l r : List Char)
    (hl : ∀ c ∈ l, p c = true) :
    (l ++ r).takeWhile p = l ++ r.takeWhile p := by
  induction l with
  | nil => simp
  | cons a t ih =>
    have ha : p a = true := hl a (by simp)
    rw [List.cons_append, List.takeWhile_cons, ha]
    simp only [if_true]
    rw [ih (fun c hc => hl c (by simp [hc]))]
    rfl

/-- takeWhile stops immediately on a failing head. -/
lemma takeWhile_eq_nil_of_head (p : Char → Bool) (r : List Char)
    (hr : ∀ c, r.head? = some c → p c = false) : r.takeWhile p = [] := by
  cases r with
  | nil => rfl
  | cons a t =>
    rw [List.takeWhile_cons, hr a rfl]
    simp

/-- sscanfD on a nonempty digit run followed by a non-digit. -/
lemma sscanfD_digits (D r : List Char) (hD : ∀ c ∈ D, isDigitC c = true) (hne : D ≠ [])
    (hr : ∀ c, r.head? = some c → isDigitC c = false) :
    sscanfD (D ++ r) = some (digitsVal D % U32) := by
  obtain ⟨d, D', rfl⟩ := List.exists_cons_of_ne_nil hne
  have hd : isDigitC d = true := hD d (by simp)
  obtain ⟨hw, hm, hp, -, -⟩ := digit_props d hd
  have hdrop : ((d :: D') ++ r).dropWhile (fun c => isWsC c) = d :: (D' ++ r) := by
    rw [List.cons_append, List.dropWhile_cons, hw]
    simp
  have htake : ((d :: D') ++ r).takeWhile (fun c => isDigitC c) = d :: D' := by
    rw [takeWhile_append_of_all _ _ _ hD, takeWhile_eq_nil_of_head _ _ hr, List.append_nil]
  unfold sscanfD
  rw [hdrop]
  simp only [List.head?_cons, Option.some.injEq]
  rw [if_neg hm, if_neg hp]
  unfold sscanfDigits
  rw [show (d :: (D' ++ r)).takeWhile (fun c => isDigitC c) = d :: D' from by
    rw [← List.cons_append, htake]]
  simp

/-- Every character of sprintfD is a digit or the minus sign. -/
lemma mem_sprintfD (v : Nat) (c : Char) (hc : c ∈ sprintfD v) :
    isDigitC c = true ∨ c = '-' := by
  unfold sprintfD at hc
  by_cases h : v < 2147483648
  · rw [if_pos h] at hc
    exact Or.inl (toDecimal_mem v c hc)
  · rw [if_neg h] at hc
    rcases List.mem_cons.mp hc with rfl | hc
    · exact Or.inr rfl
    · exact Or.inl (toDecimal_mem (U32 - v) c hc)

/-- sprintfD renders at least one character. -/
lemma sprintfD_ne_nil (v : Nat) : sprintfD v ≠ [] := by
  unfold sprintfD
  by_cases h : v < 2147483648
  · rw [if_pos h]; exact toDecimal_ne_nil v
  · rw [if_neg h]; simp

/-- sscanfD inverts sprintfD for unsigned 32-bit values, also with a
non-digit continuation appended. -/
lemma sscanfD_sprintfD (v : Nat) (hv : v < U32) (r : List Char)
    (hr : ∀ c, r.head? = some c → isDigitC c = false) :
    sscanfD (sprintfD v ++ r) = some v := by
  unfold sprintfD
  by_cases h : v < 2147483648
  · rw [if_pos h, sscanfD_digits (toDecimal v) r (toDecimal_mem v) (toDecimal_ne_nil v) hr,
      digitsVal_toDecimal, Nat.mod_eq_of_lt hv]
  · rw [if_neg h]
    have hvpos : 2147483648 ≤ v := by omega
    have hdrop : (('-' :: toDecimal (U32 - v)) ++ r).dropWhile (fun c => isWsC c)
        = '-' :: (toDecimal (U32 - v) ++ r) := by
      rw [List.cons_append, List.dropWhile_cons]
      simp [isWsC]
    have hstep : sscanfD (('-' :: toDecimal (U32 - v)) ++ r)
        = sscanfDigits (toDecimal (U32 - v) ++ r) true := by
      unfold sscanfD
      rw [hdrop]
      rfl
    rw [hstep]
    unfold sscanfDigits
    rw [takeWhile_append_of_all _ _ _ (toDecimal_mem (U32 - v)),
      takeWhile_eq_nil_of_head _ _ hr, List.append_nil]
    have hne := toDecimal_ne_nil (U32 - v)
    simp only [List.isEmpty_eq_true, hne, if_false, if_true, digitsVal_toDecimal]
    unfold U32 at hv ⊢
    congr 1
    omega

/-! Characterizations of the two scans. -/

/-- findColon finds exactly the leftmost colon. -/
lemma findColon_eq_some_iff (id : List Char) (c : Nat) :
    findColon id = some c ↔
      c < id.length ∧ id.getD c ' ' = ':' ∧ ∀ j, j < c → id.getD j ' ' ≠ ':' := by
  induction id generalizing c with
  | nil => simp [findColon]
  | cons a t ih =>
    by_cases ha : a = ':'
    · subst ha
      rw [findColon, if_pos rfl]
      constructor
      · intro h
        obtain rfl : c = 0 := by simpa using h.symm
        exact ⟨by simp, rfl, by omega⟩
      · rintro ⟨-, -, hnone⟩
        rcases Nat.eq_zero_or_pos c with rfl | hc
        · rfl
        · exact absurd rfl (hnone 0 hc)
    · rw [findColon, if_neg ha]
      cases c with
      | zero =>
        constructor
        · intro h
          rcases hft : findColon t with - | c'
          · rw [hft] at h; simp at h
          · rw [hft] at h; simp at h
        · rintro ⟨-, h0, -⟩
          exact absurd h0 ha
      | succ c' =>
        constructor
        · intro h
          rcases hft : findColon t with - | c''
          · rw [hft] at h; simp at h
          · rw [hft] at h
            simp only [Option.map_some', Option.some.injEq] at h
            obtain rfl : c'' = c' := by omega
            obtain ⟨h1, h2, h3⟩ := (ih c'').mp hft
            refine ⟨by simpa using h1, h2, ?_⟩
            intro j hj
            cases j with
            | zero => simpa using ha
            | succ j' => exact h3 j' (by omega)
        · rintro ⟨h1, h2, h3⟩
          have ht : findColon t = some c' := by
            refine (ih c').mpr ⟨by simpa using h1, h2, ?_⟩
            intro j hj
            exact h3 (j + 1) (by omega)
          rw [ht]
          rfl

/-- lastUnderscoreLE finds exactly the rightmost underscore at or below the
start index. -/
lemma lastUnderscoreLE_eq_some_iff (id : List Char) (i u : Nat) :
    lastUnderscoreLE id i = some u ↔
      u ≤ i ∧ id.getD u ' ' = '_' ∧ ∀ j, u < j → j ≤ i → id.getD j ' ' ≠ '_' := by
  induction i generalizing u with
  | zero =>
    by_cases h0 : id.getD 0 ' ' = '_'
    · rw [lastUnderscoreLE, if_pos h0]
      constructor
      · intro h
        obtain rfl : u = 0 := by simpa using h.symm
        exact ⟨le_rfl, h0, by omega⟩
      · rintro ⟨hu, -, -⟩
        obtain rfl : u = 0 := by omega
        rfl
    · rw [lastUnderscoreLE, if_neg h0]
      constructor
      · intro h; simp at h
      · rintro ⟨hu, hu', -⟩
        obtain rfl : u = 0 := by omega
        exact absurd hu' h0
  | succ i' ih =>
    by_cases h : id.getD (i' + 1) ' ' = '_'
    · rw [lastUnderscoreLE, if_pos h]
      constructor
      · intro hh
        obtain rfl : u = i' + 1 := by simpa using hh.symm
        exact ⟨le_rfl, h, by omega⟩
      · rintro ⟨hu, hu', hnone⟩
        rcases Nat.lt_or_ge u (i' + 1) with hlt | hge
        · exact absurd h (hnone (i' + 1) hlt le_rfl)
        · obtain rfl : u = i' + 1 := by omega
          rfl
    · rw [lastUnderscoreLE, if_neg h]
      rw [ih u]
      constructor
      · rintro ⟨hu, hu', hnone⟩
        refine ⟨by omega, hu', ?_⟩
        intro j hj1 hj2
        rcases Nat.lt_or_ge j (i' + 1) with hlt | hge
        · exact hnone j hj1 (by omega)
        · obtain rfl : j = i' + 1 := by omega
          exact h
      · rintro ⟨hu, hu', hnone⟩
        have hu2 : u ≤ i' := by
          rcases Nat.lt_or_ge u (i' + 1) with hlt | hge
          · omega
          · obtain rfl : u = i' + 1 := by omega
            exact absurd hu' h
        exact ⟨hu2, hu', fun j hj1 hj2 => hnone j hj1 (by omega)⟩

/-- findColon skips a colon-free prefix. -/
lemma findColon_append (l m : List Char) (hl : ':' ∉ l) :
    findColon (l ++ m) = (findColon m).map (l.length + ·) := by
  induction l with
  | nil =>
    rcases h : findColon m with - | c <;> simp [h]
  | cons a t ih =>
    have ha : a ≠ ':' := by
      intro hh
      exact hl (by simp [hh])
    rw [List.cons_append, findColon, if_neg ha, ih (fun hm => hl (by simp [hm]))]
    rcases h : findColon m with - | c
    · rfl
    · simp only [Option.map_some', List.length_cons]
      congr 1
      omega

/-- getD through an append, right part, with the index split given as an
equation so that omega can discharge it. -/
lemma getD_append_right' (l m : List Char) (j k : Nat) (h : j = l.length + k) :
    (l ++ m).getD j ' ' = m.getD k ' ' := by
  subst h
  rw [List.getD_append_right l m ' ' (l.length + k) (by omega)]
  congr 1
  omega

/-- getD through an append, left part. -/
lemma getD_append_left' (l m : List Char) (j : Nat) (h : j < l.length) :
    (l ++ m).getD j ' ' = l.getD j ' ' :=
  List.getD_append l m ' ' j h

/-- getD of an index inside the list is a member. -/
lemma getD_mem (l : List Char) (j : Nat) (h : j < l.length) : l.getD j ' ' ∈ l := by
  rw [List.getD_eq_getElem _ _ h]
  exact List.getElem_mem h

/-- drop through an append with the index split given as an equation. -/
lemma drop_append' (l m : List Char) (j k : Nat) (h : j = l.length + k) :
    (l ++ m).drop j = m.drop k := by
  subst h
  simp [List.drop_append]

/-- decodeCore on a string of the exact shape the encoder emits:
contigName, underscore, a sign-or-digit block, underscore, a second
sign-or-digit block, then the literal underscore-0-colon tail.  The scans
land on the three separator underscores and the parses read the two
blocks. -/
lemma decodeCore_shape (cn B E rest : List Char) (o1 o2 : Nat)
    (hcn : ':' ∉ cn)
    (hB : ∀ c ∈ B, isDigitC c = true ∨ c = '-') (hBne : B ≠ [])
    (hE : ∀ c ∈ E, isDigitC c = true ∨ c = '-') (hEne : E ≠ [])
    (hlen : cn.length < contigNameMaxSize)
    (ho1 : sscanfD (B ++ ('_' :: E ++ ('_' :: '0' :: ':' :: rest))) = some o1)
    (ho2 : sscanfD (E ++ ('_' :: '0' :: ':' :: rest)) = some o2) :
    decodeCore (cn ++ ('_' :: B ++ ('_' :: E ++ ('_' :: '0' :: ':' :: rest))))
      = .ok (cn, o1, o2) := by
  have hbpos : 0 < B.length := List.length_pos.mpr hBne
  have hepos : 0 < E.length := List.length_pos.mpr hEne
  have hBcu : ∀ c ∈ B, c ≠ ':' ∧ c ≠ '_' := by
    intro c hc
    rcases hB c hc with hd | rfl
    · obtain ⟨-, -, -, h4, h5⟩ := digit_props c hd
      exact ⟨h5, h4⟩
    · exact ⟨by decide, by decide⟩
  have hEcu : ∀ c ∈ E, c ≠ ':' ∧ c ≠ '_' := by
    intro c hc
    rcases hE c hc with hd | rfl
    · obtain ⟨-, -, -, h4, h5⟩ := digit_props c hd
      exact ⟨h5, h4⟩
    · exact ⟨by decide, by decide⟩
  have hBc : ':' ∉ '_' :: B := by
    intro h
    rcases List.mem_cons.mp h with h | h
    · exact absurd h.symm (by decide)
    · exact (hBcu ':' h).1 rfl
  have hEc : ':' ∉ '_' :: E := by
    intro h
    rcases List.mem_cons.mp h with h | h
    · exact absurd h.symm (by decide)
    · exact (hEcu ':' h).1 rfl
  have hfc0 : findColon ('_' :: '0' :: ':' :: rest) = some 2 := rfl
  have hfc1 : findColon ('_' :: E ++ ('_' :: '0' :: ':' :: rest))
      = some (E.length + 3) := by
    rw [findColon_append _ _ hEc, hfc0]
    simp only [Option.map_some', List.length_cons]
    try congr 1
    try omega
  have hfc2 : findColon ('_' :: B ++ ('_' :: E ++ ('_' :: '0' :: ':' :: rest)))
      = some (B.length + (E.length + 4)) := by
    rw [findColon_append _ _ hBc, hfc1]
    simp only [Option.map_some', List.length_cons]
    try congr 1
    try omega
  have hfc : findColon (cn ++ ('_' :: B ++ ('_' :: E ++ ('_' :: '0' :: ':' :: rest))))
      = some (cn.length + B.length + E.length + 4) := by
    rw [findColon_append _ _ hcn, hfc2]
    simp only [Option.map_some']
    try congr 1
    try omega
  have hgetU1 : (cn ++ ('_' :: B ++ ('_' :: E ++ ('_' :: '0' :: ':' :: rest)))).getD
      (cn.length + B.length + E.length + 2) ' ' = '_' := by
    rw [getD_append_right' cn _ (cn.length + B.length + E.length + 2)
        (B.length + E.length + 2) (by omega),
      getD_append_right' ('_' :: B) _ (B.length + E.length + 2) (E.length + 1)
        (by simp only [List.length_cons]; try omega),
      getD_append_right' ('_' :: E) _ (E.length + 1) 0
        (by simp only [List.length_cons]; try omega)]
    rfl
  have hget0 : (cn ++ ('_' :: B ++ ('_' :: E ++ ('_' :: '0' :: ':' :: rest)))).getD
      (cn.length + B.length + E.length + 3) ' ' = '0' := by
    rw [getD_append_right' cn _ (cn.length + B.length + E.length + 3)
        (B.length + E.length + 3) (by omega),
      getD_append_right' ('_' :: B) _ (B.length + E.length + 3) (E.length + 2)
        (by simp only [List.length_cons]; try omega),
      getD_append_right' ('_' :: E) _ (E.length + 2) 1
        (by simp only [List.length_cons]; try omega)]
    rfl
  have hgetU2 : (cn ++ ('_' :: B ++ ('_' :: E ++ ('_' :: '0' :: ':' :: rest)))).getD
      (cn.length + B.length + 1) ' ' = '_' := by
    rw [getD_append_right' cn _ (cn.length + B.length + 1) (B.length + 1) (by omega),
      getD_append_right' ('_' :: B) _ (B.length + 1) 0
        (by simp only [List.length_cons]; try omega)]
    rfl
  have hgetU3 : (cn ++ ('_' :: B ++ ('_' :: E ++ ('_' :: '0' :: ':' :: rest)))).getD
      cn.length ' ' = '_' := by
    rw [getD_append_right' cn _ cn.length 0 (by omega)]
    rfl
  have hgetE : ∀ j, cn.length + B.length + 1 < j → j ≤ cn.length + B.length + E.length + 1 →
      (cn ++ ('_' :: B ++ ('_' :: E ++ ('_' :: '0' :: ':' :: rest)))).getD j ' ' ∈ E := by
    intro j h1 h2
    rw [getD_append_right' cn _ j (j - cn.length) (by omega),
      getD_append_right' ('_' :: B) _ (j - cn.length) (j - cn.length - (B.length + 1))
        (by simp only [List.length_cons]; try omega),
      getD_append_left' _ _ _ (by simp only [List.length_cons]; try omega),
      show j - cn.length - (B.length + 1) = (j - cn.length - (B.length + 1) - 1) + 1 from
        by omega,
      List.getD_cons_succ]
    exact getD_mem E _ (by omega)
  have hgetB : ∀ j, cn.length < j → j ≤ cn.length + B.length →
      (cn ++ ('_' :: B ++ ('_' :: E ++ ('_' :: '0' :: ':' :: rest)))).getD j ' ' ∈ B := by
    intro j h1 h2
    rw [getD_append_right' cn _ j (j - cn.length) (by omega),
      getD_append_left' _ _ _ (by simp only [List.length_cons]; try omega),
      show j - cn.length = (j - cn.length - 1) + 1 from by omega,
      List.getD_cons_succ]
    exact getD_mem B _ (by omega)
  have hu1 : backUnderscore (cn ++ ('_' :: B ++ ('_' :: E ++ ('_' :: '0' :: ':' :: rest))))
      (cn.length + B.length + E.length + 4) = some (cn.length + B.length + E.length + 2) := by
    unfold backUnderscore
    rw [if_neg (by omega),
      show cn.length + B.length + E.length + 4 - 1 = cn.length + B.length + E.length + 3 from
        by omega]
    apply (lastUnderscoreLE_eq_some_iff _ _ _).mpr
    refine ⟨by omega, hgetU1, ?_⟩
    intro j hj1 hj2
    obtain rfl : j = cn.length + B.length + E.length + 3 := by omega
    rw [hget0]
    decide
  have hu2 : backUnderscore (cn ++ ('_' :: B ++ ('_' :: E ++ ('_' :: '0' :: ':' :: rest))))
      (cn.length + B.length + E.length + 2) = some (cn.length + B.length + 1) := by
    unfold backUnderscore
    rw [if_neg (by omega),
      show cn.length + B.length + E.length + 2 - 1 = cn.length + B.length + E.length + 1 from
        by omega]
    apply (lastUnderscoreLE_eq_some_iff _ _ _).mpr
    refine ⟨by omega, hgetU2, ?_⟩
    intro j hj1 hj2
    exact (hEcu _ (hgetE j hj1 hj2)).2
  have hu3 : backUnderscore (cn ++ ('_' :: B ++ ('_' :: E ++ ('_' :: '0' :: ':' :: rest))))
      (cn.length + B.length + 1) = some cn.length := by
    unfold backUnderscore
    rw [if_neg (by omega),
      show cn.length + B.length + 1 - 1 = cn.length + B.length from by omega]
    apply (lastUnderscoreLE_eq_some_iff _ _ _).mpr
    refine ⟨by omega, hgetU3, ?_⟩
    intro j hj1 hj2
    exact (hBcu _ (hgetB j hj1 hj2)).2
  have hdrop1 : (cn ++ ('_' :: B ++ ('_' :: E ++ ('_' :: '0' :: ':' :: rest)))).drop
      (cn.length + 1) = B ++ ('_' :: E ++ ('_' :: '0' :: ':' :: rest)) := by
    rw [drop_append' cn _ (cn.length + 1) 1 (by omega)]
    rfl
  have hdrop2 : (cn ++ ('_' :: B ++ ('_' :: E ++ ('_' :: '0' :: ':' :: rest)))).drop
      (cn.length + B.length + 1 + 1) = E ++ ('_' :: '0' :: ':' :: rest) := by
    rw [drop_append' cn _ (cn.length + B.length + 1 + 1) (B.length + 2) (by omega),
      drop_append' ('_' :: B) _ (B.length + 2) 1 (by simp only [List.length_cons]; try omega)]
    rfl
  have hadj : ¬(cn.length + B.length + E.length + 2 = cn.length + B.length + 1 + 1) := by
    omega
  have hsz : ¬(cn.length ≥ contigNameMaxSize) := not_le.mpr hlen
  simp only [decodeCore, hfc, hu1, hu2, hu3, hdrop1, ho1, hadj, if_false, ite_false, hdrop2,
    ho2, hsz, List.take_left]

/-- Inversion of a successful decodeCore run: the contig name is the slice
strictly before the third underscore found scanning back from the first
colon, offset1 parses after the third underscore, and offset2 either
defaults to offset1 (adjacent underscores) or parses after the second
underscore. -/
lemma decodeCore_ok_inv (id cn : List Char) (o1 o2 : Nat)
    (h : decodeCore id = .ok (cn, o1, o2)) :
    ∃ c u1 u2 u3, findColon id = some c ∧ backUnderscore id c = some u1 ∧
      backUnderscore id u1 = some u2 ∧ backUnderscore id u2 = some u3 ∧
      cn = id.take u3 ∧ u3 < contigNameMaxSize ∧
      sscanfD (id.drop (u3 + 1)) = some o1 ∧
      ((u1 = u2 + 1 ∧ o2 = o1) ∨ (u1 ≠ u2 + 1 ∧ sscanfD (id.drop (u2 + 1)) = some o2)) := by
  unfold decodeCore at h
  split at h
  · exact absurd h (by simp)
  rename_i c hfc
  split at h
  · exact absurd h (by simp)
  rename_i u1 hu1
  split at h
  · exact absurd h (by simp)
  rename_i u2 hu2
  split at h
  · exact absurd h (by simp)
  rename_i u3 hu3
  split at h
  · exact absurd h (by simp)
  rename_i o1' hO1
  split at h
  · exact absurd h (by simp)
  rename_i o2' hO2
  split at h
  · exact absurd h (by simp)
  rename_i hsz
  simp only [Except.ok.injEq, Prod.mk.injEq] at h
  obtain ⟨hTake, hEq1, hEq2⟩ := h
  refine ⟨c, u1, u2, u3, hfc, hu1, hu2, hu3, hTake.symm, not_le.mp hsz, ?_, ?_⟩
  · rw [← hEq1]
    exact hO1
  · by_cases hadj : u1 = u2 + 1
    · left
      refine ⟨hadj, ?_⟩
      rw [if_pos hadj] at hO2
      have h5 : o1' = o2' := Option.some.inj hO2
      omega
    · right
      refine ⟨hadj, ?_⟩
      rw [if_neg hadj] at hO2
      rw [← hEq2]
      exact hO2

/-- Decoding an encoded id recovers the interval directly computable from
the encoder inputs, for any genome that knows the contig. -/
lemma decodeId_generate (g : Genome) (cn : List Char) (o rl : Nat) (fh : Bool) (off : Nat)
    (hcn : ':' ∉ cn) (hlen : cn.length < contigNameMaxSize)
    (hoff : getOffsetOfContig g cn = some off) :
    decodeId g (wgsimGenerateIDString cn o rl fh) =
      .ok (min ((o + 1 + off + (U32 - 1)) % U32) ((o + rl + off + (U32 - 1)) % U32),
           max ((o + 1 + off + (U32 - 1)) % U32) ((o + rl + off + (U32 - 1)) % U32)) := by
  have hshape : wgsimGenerateIDString cn o rl fh
      = cn ++ ('_' :: sprintfD ((o + 1) % U32) ++ ('_' :: sprintfD ((o + rl) % U32)
          ++ ('_' :: '0' :: ':' :: (":0:0_2:0:a0_0/".toList ++ [if fh then '1' else '2'])))) := by
    unfold wgsimGenerateIDString
    simp only [List.append_assoc, List.cons_append]
    rfl
  have hB : ∀ c ∈ sprintfD ((o + 1) % U32), isDigitC c = true ∨ c = '-' :=
    fun c hc => mem_sprintfD _ c hc
  have hE : ∀ c ∈ sprintfD ((o + rl) % U32), isDigitC c = true ∨ c = '-' :=
    fun c hc => mem_sprintfD _ c hc
  have ho1 : sscanfD (sprintfD ((o + 1) % U32) ++ ('_' :: sprintfD ((o + rl) % U32)
      ++ ('_' :: '0' :: ':' :: (":0:0_2:0:a0_0/".toList ++ [if fh then '1' else '2']))))
      = some ((o + 1) % U32) := by
    apply sscanfD_sprintfD _ (Nat.mod_lt _ (by decide))
    intro c hc
    have h2 : some '_' = some c := hc
    cases h2
    decide
  have ho2 : sscanfD (sprintfD ((o + rl) % U32)
      ++ ('_' :: '0' :: ':' :: (":0:0_2:0:a0_0/".toList ++ [if fh then '1' else '2'])))
      = some ((o + rl) % U32) := by
    apply sscanfD_sprintfD _ (Nat.mod_lt _ (by decide))
    intro c hc
    have h2 : some '_' = some c := hc
    cases h2
    decide
  have hcore : decodeCore (wgsimGenerateIDString cn o rl fh)
      = .ok (cn, (o + 1) % U32, (o + rl) % U32) := by
    rw [hshape]
    exact decodeCore_shape cn (sprintfD ((o + 1) % U32)) (sprintfD ((o + rl) % U32))
      (":0:0_2:0:a0_0/".toList ++ [if fh then '1' else '2']) ((o + 1) % U32) ((o + rl) % U32)
      hcn hB (sprintfD_ne_nil _) hE (sprintfD_ne_nil _) hlen ho1 ho2
  simp only [decodeId, hcore, hoff]
  have e1 : ((o + 1) % U32 + off + (U32 - 1)) % U32 = (o + 1 + off + (U32 - 1)) % U32 := by
    unfold U32
    omega
  have e2 : ((o + rl) % U32 + off + (U32 - 1)) % U32 = (o + rl + off + (U32 - 1)) % U32 := by
    unfold U32
    omega
  rw [e1, e2]

/-! Claim theorems. -/

/-- C1 counterexample: with the interval [4294967295, 4294967295] and
maxK = 5, candidate 4294967294 is within distance 1 of the interval, so
the stated exact-arithmetic rule says aligned, yet the unsigned comparison
of the code reports misaligned because high + maxK wraps modulo 2^32. -/
theorem C1_counterexample :
    decodeId [("c".toList, 0)] "c_0_0_0:x".toList = .ok (4294967295, 4294967295) ∧
      wgsimJudge 4294967294 4294967295 4294967295 5 = true ∧
      ¬ (4294967295 + 5 < 4294967294 ∨ 4294967294 + 5 < 4294967295) := by
  refine ⟨by decide, by decide, by decide⟩

/-- C1 (amended): whenever high + maxK and candidate + maxK do not exceed
the unsigned range (no wrap), the Judge reports misaligned exactly when
candidate > high + maxK or candidate + maxK < low; in particular, for the
interval [100, 200] with maxK = 5, location 95 is aligned, 94 misaligned,
205 aligned and 206 misaligned. -/
theorem C1_judge_rule :
    (∀ c l h k : Nat, h + k < U32 → c + k < U32 →
        (wgsimJudge c l h k = true ↔ (h + k < c ∨ c + k < l))) ∧
      wgsimJudge 95 100 200 5 = false ∧ wgsimJudge 94 100 200 5 = true ∧
      wgsimJudge 205 100 200 5 = false ∧ wgsimJudge 206 100 200 5 = true := by
  refine ⟨?_, by decide, by decide, by decide, by decide⟩
  intro c l h k h1 h2
  unfold wgsimJudge
  rw [Nat.mod_eq_of_lt h1, Nat.mod_eq_of_lt h2]
  simp only [Bool.or_eq_true, decide_eq_true_eq]

/-- C1 witness: the no-wrap rule applied at a concrete input. -/
theorem C1_judge_rule_witness : wgsimJudge 300 100 200 5 = true :=
  (C1_judge_rule.1 300 100 200 5 (by decide) (by decide)).mpr (Or.inl (by decide))

/-- C5 counterexample: adding maxK to high does silently wrap modulo 2^32
in the code: at interval [4294967294, 4294967294] with maxK = 7 the sum
wraps, and the candidate 4294967293 that the exact rule calls aligned is
reported misaligned. -/
theorem C5_counterexample :
    decodeId [("c".toList, 0)] "c_4294967295_4294967295_0:x".toList
        = .ok (4294967294, 4294967294) ∧
      wgsimJudge 4294967293 4294967294 4294967294 7 = true ∧
      (4294967294 + 7) % U32 ≠ 4294967294 + 7 ∧
      ¬ (4294967294 + 7 < 4294967293 ∨ 4294967293 + 7 < 4294967294) := by
  refine ⟨by decide, by decide, by decide, by decide⟩

/-- C5 (amended): the unsigned additions can wrap, but the wrap never
produces a spurious aligned verdict: every candidate that the
exact-arithmetic rule calls misaligned is reported misaligned by the
unsigned comparison. -/
theorem C5_wrap_never_spurious_aligned :
    ∀ c l h k : Nat, c < U32 → l < U32 → (h + k < c ∨ c + k < l) →
      wgsimJudge c l h k = true := by
  intro c l h k hc hl hm
  unfold wgsimJudge
  rcases hm with hm | hm
  · have hlt : (h + k) % U32 < c := lt_of_le_of_lt (Nat.mod_le _ _) hm
    simp [hlt]
  · have hlt : (c + k) % U32 < l := by
      have := Nat.mod_le (c + k) U32
      omega
    simp [hlt]

/-- C5 witness: the amended statement applied at a concrete input. -/
theorem C5_wrap_never_spurious_aligned_witness : wgsimJudge 400 100 200 50 = true :=
  C5_wrap_never_spurious_aligned 400 100 200 50 (by decide) (by decide) (Or.inl (by decide))

/-- C2: round-trip: for every contig name free of colons and within the
contig-name bound, every 0-based offsetInContig, every readLength at least
one, both firstHalf values, and any genome that maps the contig to base
offset off, decoding the encoded id succeeds and yields
low = min(abs(offsetInContig+1), abs(offsetInContig+readLength)) and
high = the max of the same two values, where abs x = (x + off - 1) in the
unsigned 32-bit arithmetic, matching direct computation from the encoder
inputs. -/
theorem C2_roundtrip (g : Genome) (contigName : List Char)
    (offsetInContig readLength : Nat) (firstHalf : Bool) (off : Nat)
    (hcn : ':' ∉ contigName) (hlen : contigName.length < contigNameMaxSize)
    (hoff : getOffsetOfContig g contigName = some off) (hrl : 1 ≤ readLength) :
    decodeId g (wgsimGenerateIDString contigName offsetInContig readLength firstHalf) =
      .ok (min ((offsetInContig + 1 + off + (U32 - 1)) % U32)
             ((offsetInContig + readLength + off + (U32 - 1)) % U32),
           max ((offsetInContig + 1 + off + (U32 - 1)) % U32)
             ((offsetInContig + readLength + off + (U32 - 1)) % U32)) :=
  decodeId_generate g contigName offsetInContig readLength firstHalf off hcn hlen hoff

/-- C2 witness: the round-trip applied at a concrete contig, offset and
read length. -/
theorem C2_roundtrip_witness :
    decodeId [("chr".toList, 10)] (wgsimGenerateIDString "chr".toList 0 1 true) =
      .ok (min ((0 + 1 + 10 + (U32 - 1)) % U32) ((0 + 1 + 10 + (U32 - 1)) % U32),
           max ((0 + 1 + 10 + (U32 - 1)) % U32) ((0 + 1 + 10 + (U32 - 1)) % U32)) :=
  C2_roundtrip [("chr".toList, 10)] "chr".toList 0 1 true 10 (by decide) (by decide)
    (by decide) (by decide)

/-- C3: the Decoder anchors at the first colon scanning left to right (the
findColon characterization), scans backward to the nearest underscore (the
lastUnderscoreLE characterization), takes everything strictly before the
third underscore as the contig name and parses offset1 right after it; in
particular the identifier with contig chr_1 decodes to contig chr_1,
offset1 = 100, offset2 = 200. -/
theorem C3_decoder_scan :
    (∀ id c, findColon id = some c ↔
        (c < id.length ∧ id.getD c ' ' = ':' ∧ ∀ j, j < c → id.getD j ' ' ≠ ':')) ∧
      (∀ id i u, lastUnderscoreLE id i = some u ↔
        (u ≤ i ∧ id.getD u ' ' = '_' ∧ ∀ j, u < j → j ≤ i → id.getD j ' ' ≠ '_')) ∧
      (∀ id cn o1 o2, decodeCore id = .ok (cn, o1, o2) →
        ∃ c u1 u2 u3, findColon id = some c ∧ backUnderscore id c = some u1 ∧
          backUnderscore id u1 = some u2 ∧ backUnderscore id u2 = some u3 ∧
          cn = id.take u3 ∧ sscanfD (id.drop (u3 + 1)) = some o1) ∧
      decodeCore "chr_1_100_200_0::0:0_2:0:a0_0/1".toList = .ok ("chr_1".toList, 100, 200) := by
  refine ⟨findColon_eq_some_iff, lastUnderscoreLE_eq_some_iff, ?_, by decide⟩
  intro id cn o1 o2 h
  obtain ⟨c, u1, u2, u3, hfc, hu1, hu2, hu3, hTake, -, hO1, -⟩ := decodeCore_ok_inv id cn o1 o2 h
  exact ⟨c, u1, u2, u3, hfc, hu1, hu2, hu3, hTake, hO1⟩

/-- C3 witness: the first-colon characterization applied at a concrete
identifier. -/
theorem C3_decoder_scan_witness : findColon "ab:c".toList = some 2 :=
  (C3_decoder_scan.1 "ab:c".toList 2).mpr (by decide)

/-- C4 counterexample: a decode failure is returned to the caller as the
boolean false, the very same return value as an aligned verdict: the call
on noColonHere fails to decode yet returns false, exactly like the
successful aligned call on chr_100_200_0:x. -/
theorem C4_counterexample :
    wgsimReadMisaligned [("chr".toList, 0)] "noColonHere".toList 0 0
        = .parseFail .MissingColon ∧
      creturn (wgsimReadMisaligned [("chr".toList, 0)] "noColonHere".toList 0 0)
        = some false ∧
      wgsimReadMisaligned [("chr".toList, 0)] "chr_100_200_0:x".toList 150 5
        = .success 99 199 false ∧
      creturn (wgsimReadMisaligned [("chr".toList, 0)] "chr_100_200_0:x".toList 150 5)
        = some false := by
  refine ⟨by decide, by decide, by decide, by decide⟩

/-- C4 (amended): on every recoverable decode failure the function prints
a diagnostic and returns the boolean false, the same value as a
not-misaligned verdict; the return value does not distinguish failure
from aligned. -/
theorem C4_fail_returns_false (g : Genome) (id : List Char) (loc k : Nat) (e : ParseError)
    (h : wgsimReadMisaligned g id loc k = .parseFail e) :
    creturn (wgsimReadMisaligned g id loc k) = some false := by
  rw [h]
  rfl

/-- C4 witness: the amended statement applied at a concrete failing id. -/
theorem C4_fail_returns_false_witness :
    creturn (wgsimReadMisaligned [] "noColonHere".toList 0 0) = some false :=
  C4_fail_returns_false [] "noColonHere".toList 0 0 .MissingColon (by decide)

/-- C6 counterexample: in x_b__0: the first underscore before the colon
(index 4) and the second (index 3) are adjacent, yet decoding does not
succeed: it fails earlier with BadOffset1, so adjacency alone does not
imply a successful decode. -/
theorem C6_counterexample :
    findColon "x_b__0:".toList = some 6 ∧
      backUnderscore "x_b__0:".toList 6 = some 4 ∧
      backUnderscore "x_b__0:".toList 4 = some 3 ∧
      decodeCore "x_b__0:".toList = .error .BadOffset1 := by
  refine ⟨by decide, by decide, by decide, by decide⟩

/-- C6 (amended): once the colon and the three underscores are located,
offset1 parses and the contig-name bound holds, adjacent first and second
underscores make the parse succeed with offset2 equal to offset1;
otherwise offset2 is parsed after the second underscore, failing with
BadOffset2 exactly when that parse fails. -/
theorem C6_offset2_rule (id : List Char) (c u1 u2 u3 o1 : Nat)
    (hfc : findColon id = some c) (hu1 : backUnderscore id c = some u1)
    (hu2 : backUnderscore id u1 = some u2) (hu3 : backUnderscore id u2 = some u3)
    (hO1 : sscanfD (id.drop (u3 + 1)) = some o1) (hsz : u3 < contigNameMaxSize) :
    (u1 = u2 + 1 → decodeCore id = .ok (id.take u3, o1, o1)) ∧
      (u1 ≠ u2 + 1 → sscanfD (id.drop (u2 + 1)) = none →
        decodeCore id = .error .BadOffset2) ∧
      (∀ o2, u1 ≠ u2 + 1 → sscanfD (id.drop (u2 + 1)) = some o2 →
        decodeCore id = .ok (id.take u3, o1, o2)) := by
  have hsz' : ¬(u3 ≥ contigNameMaxSize) := not_le.mpr hsz
  refine ⟨?_, ?_, ?_⟩
  · intro hadj
    simp only [decodeCore, hfc, hu1, hu2, hu3, hO1, if_pos hadj, hsz', if_false, ite_false]
  · intro hadj hnone
    simp only [decodeCore, hfc, hu1, hu2, hu3, hO1, if_neg hadj, hnone]
  · intro o2 hadj hsome
    simp only [decodeCore, hfc, hu1, hu2, hu3, hO1, if_neg hadj, hsome, hsz', if_false,
      ite_false]

/-- C6 witness: the single-end branch applied to a concrete id with
adjacent underscores. -/
theorem C6_offset2_rule_witness :
    decodeCore "c_5__0:".toList = .ok ("c_5__0:".toList.take 1, 5, 5) :=
  (C6_offset2_rule "c_5__0:".toList 6 4 3 1 5 (by decide) (by decide) (by decide) (by decide)
    (by decide) (by decide)).1 (by decide)

/-- C7 counterexample: the identifier a_b_c_noUnderscorePattern: has three
underscores before its colon, so it does not fail with a
missing-underscore kind: it fails with BadOffset1 because the text after
the third underscore is not a number. -/
theorem C7_counterexample :
    decodeCore "a_b_c_noUnderscorePattern:".toList = .error .BadOffset1 ∧
      ParseError.BadOffset1 ≠ ParseError.MissingUnderscore1 ∧
      ParseError.BadOffset1 ≠ ParseError.MissingUnderscore2 ∧
      ParseError.BadOffset1 ≠ ParseError.MissingUnderscore3 := by
  refine ⟨by decide, by decide, by decide, by decide⟩

/-- C7 (amended): noColonHere and the empty string fail with the
missing-colon kind; a_b_c_noUnderscorePattern: fails with the BadOffset1
kind, since its three underscores are found and the segment after the
third underscore is not numeric; each failure is a specific kind. -/
theorem C7_malformed_kinds :
    decodeCore "noColonHere".toList = .error .MissingColon ∧
      decodeCore ([] : List Char) = .error .MissingColon ∧
      decodeCore "a_b_c_noUnderscorePattern:".toList = .error .BadOffset1 := by
  refine ⟨by decide, by decide, by decide⟩

/-- C8: every successful decode returns an interval with low ≤ high, where
low and high are the min and max of the two absolute offsets, each
obtained by adding the contig base offset and subtracting one (in the
unsigned 32-bit arithmetic) exactly once. -/
theorem C8_interval_invariant (g : Genome) (id : List Char) (lo hi : Nat)
    (h : decodeId g id = .ok (lo, hi)) :
    lo ≤ hi ∧ ∃ cn o1 o2 off, decodeCore id = .ok (cn, o1, o2) ∧
      getOffsetOfContig g cn = some off ∧
      lo = min ((o1 + off + (U32 - 1)) % U32) ((o2 + off + (U32 - 1)) % U32) ∧
      hi = max ((o1 + off + (U32 - 1)) % U32) ((o2 + off + (U32 - 1)) % U32) := by
  unfold decodeId at h
  split at h
  · exact absurd h (by simp)
  rename_i cn o1 o2 hcore
  split at h
  · exact absurd h (by simp)
  rename_i off hoff
  simp only [Except.ok.injEq, Prod.mk.injEq] at h
  obtain ⟨h1, h2⟩ := h
  subst h1
  subst h2
  exact ⟨min_le_max, cn, o1, o2, off, hcore, hoff, rfl, rfl⟩

/-- C8 witness: the invariant applied at a concrete successful decode. -/
theorem C8_interval_invariant_witness :
    99 ≤ 199 ∧ ∃ cn o1 o2 off,
      decodeCore "chr_100_200_0:x".toList = .ok (cn, o1, o2) ∧
      getOffsetOfContig [("chr".toList, 0)] cn = some off ∧
      99 = min ((o1 + off + (U32 - 1)) % U32) ((o2 + off + (U32 - 1)) % U32) ∧
      199 = max ((o1 + off + (U32 - 1)) % U32) ((o2 + off + (U32 - 1)) % U32) :=
  C8_interval_invariant [("chr".toList, 0)] "chr_100_200_0:x".toList 99 199 (by decide)

/-- C9: an identifier longer than 1023 bytes makes the operation exit the
process (the fatal outcome), and an identifier of at most 1023 bytes never
does. -/
theorem C9_length_gate (g : Genome) (id : List Char) (loc k : Nat) :
    1023 < id.length ↔ wgsimReadMisaligned g id loc k = .fatal := by
  unfold wgsimReadMisaligned
  by_cases h : id.length > 1023
  · simp [h]
  · rw [if_neg h]
    constructor
    · intro h2
      exact absurd h2 h
    · intro h2
      exfalso
      revert h2
      split <;> simp

/-- C9 witness: the length gate applied at a concrete over-long id. -/
theorem C9_length_gate_witness :
    wgsimReadMisaligned [] (List.replicate 1024 'a') 0 0 = .fatal :=
  (C9_length_gate [] (List.replicate 1024 'a') 0 0).mp (by rw [List.length_replicate]; omega)

/-- C10: the out cells receive the decoded low and high exactly when
decoding succeeds, whatever the verdict; on every recoverable decode
failure they keep their previous contents. -/
theorem C10_out_params (g : Genome) (id : List Char) (loc k lc hc : Nat) :
    (∀ lo hi, id.length ≤ 1023 → decodeId g id = .ok (lo, hi) →
        wgsimReadMisalignedSt g id loc k lc hc
          = (.success lo hi (wgsimJudge loc lo hi k), lo, hi)) ∧
      (∀ e, id.length ≤ 1023 → decodeId g id = .error e →
        wgsimReadMisalignedSt g id loc k lc hc = (.parseFail e, lc, hc)) := by
  constructor
  · intro lo hi hlen hD
    unfold wgsimReadMisalignedSt
    rw [if_neg (by omega), hD]
  · intro e hlen hD
    unfold wgsimReadMisalignedSt
    rw [if_neg (by omega), hD]

/-- C10 witness: the success case applied at a concrete decode. -/
theorem C10_out_params_witness :
    wgsimReadMisalignedSt [("chr".toList, 0)] "chr_100_200_0:x".toList 150 5 7 8
      = (.success 99 199 (wgsimJudge 150 99 199 5), 99, 199) :=
  (C10_out_params [("chr".toList, 0)] "chr_100_200_0:x".toList 150 5 7 8).1 99 199
    (by decide) (by decide)
